import Mathlib

/-!
Shallow embedding of the core of `bitcoin-ema-analyzer`:
the moving-average library and indicator engine (`src/indicators/ema_slope.py`),
the backtest engine (`src/backtesting/engine.py`), the performance analyzer
(`src/backtesting/analyzer.py`) and the grid-search optimizer
(`src/backtesting/optimizer.py`).

Python floats are modelled as exact rationals (`ℚ`); a pandas `NaN` cell is
modelled as `none : Option ℚ`.  A raised Python exception is modelled as
`Except.error` carrying the exception message.  Millisecond timestamps are `ℤ`.
-/

namespace BitcoinEmaAnalyzer

/-! ### Moving-average library (`src/indicators/ema_slope.py`, lines 10-72)

`ema` models `series.ewm(span=length, adjust=False).mean()`:
`y[0] = x[0]`, `y[i] = α·x[i] + (1−α)·y[i−1]` with `α = 2/(length+1)`.
The rolling means (`sma`, `wma`) yield `none` for the leading bars that do not
yet have a full window, like pandas `rolling(window=length)` with its default
`min_periods`. -/

def emaGo (a : ℚ) : ℚ → List ℚ → List ℚ
  | _, [] => []
  | prev, x :: xs =>
    let cur := a * x + (1 - a) * prev
    cur :: emaGo a cur xs

def ema (series : List ℚ) (length : Nat) : List ℚ :=
  match series with
  | [] => []
  | x :: xs => x :: emaGo (2 / ((length : ℚ) + 1)) x xs

/-- The window of the last `len` entries of `series` ending at index `i`. -/
def windowAt (series : List ℚ) (i len : Nat) : List ℚ :=
  (series.take (i + 1)).drop (i + 1 - len)

def sma (series : List ℚ) (length : Nat) : List (Option ℚ) :=
  (List.range series.length).map (fun i =>
    if i + 1 < length then none
    else some ((windowAt series i length).sum / (length : ℚ)))

/-- The FIR weights `1, 2, ..., length` used by `wma`. -/
def wmaWeights (length : Nat) : List ℚ :=
  (List.range length).map (fun k => (k : ℚ) + 1)

def wma (series : List ℚ) (length : Nat) : List (Option ℚ) :=
  (List.range series.length).map (fun i =>
    if i + 1 < length then none
    else some ((List.zipWith (fun x w => x * w) (windowAt series i length)
      (wmaWeights length)).sum / (wmaWeights length).sum))

def dema (series : List ℚ) (length : Nat) : List ℚ :=
  let e := ema series length
  List.zipWith (fun a b => 2 * a - b) e (ema e length)

def tema (series : List ℚ) (length : Nat) : List ℚ :=
  let e := ema series length
  let ee := ema e length
  List.zipWith (fun p b => 3 * (p.1 - p.2) + b) (e.zip ee) (ema ee length)

/-- NaN-propagating subtraction of two pandas cells. -/
def optSub : Option ℚ → Option ℚ → Option ℚ
  | some a, some b => some (a - b)
  | _, _ => none

/-- Rolling `wma` over a series that may contain NaN cells: a window that is
incomplete or contains a NaN produces NaN (`np.dot` with a NaN is NaN). -/
def windowAtOpt (series : List (Option ℚ)) (i len : Nat) : List (Option ℚ) :=
  (series.take (i + 1)).drop (i + 1 - len)

def wmaOpt (series : List (Option ℚ)) (length : Nat) : List (Option ℚ) :=
  (List.range series.length).map (fun i =>
    if i + 1 < length then none
    else
      match (windowAtOpt series i length).mapM id with
      | none => none
      | some w => some ((List.zipWith (fun x v => x * v) w
          (wmaWeights length)).sum / (wmaWeights length).sum))

/-- `hma`: `int(length/2)` and `int(np.sqrt(length))` are floor division and
floor square root, modelled by `Nat` division and `Nat.sqrt`. -/
def hma (series : List ℚ) (length : Nat) : List (Option ℚ) :=
  let half_length := length / 2
  let sqrt_length := Nat.sqrt length
  wmaOpt (List.zipWith optSub ((wma series half_length).map (Option.map (fun v => 2 * v)))
    (wma series length)) sqrt_length

/-- `calculate_ma` (lines 47-72): dispatch on `ma_type`; an unknown type raises
`ValueError(f"Unknown MA type: \x7bma_type\x7d")`, modelled as `Except.error`. -/
def calculate_ma (series : List ℚ) (ma_type : String) (length : Nat) :
    Except String (List (Option ℚ)) :=
  if ma_type = "SMA" then .ok (sma series length)
  else if ma_type = "EMA" then .ok ((ema series length).map some)
  else if ma_type = "DEMA" then .ok ((dema series length).map some)
  else if ma_type = "TEMA" then .ok ((tema series length).map some)
  else if ma_type = "WMA" then .ok (wma series length)
  else if ma_type = "HMA" then .ok (hma series length)
  else .error ("Unknown MA type: " ++ ma_type)

/-! ### Indicator engine (`calculate_ema_slope`, lines 75-169) -/

/-- Cell `i` of a pandas series modelled as a list (out of range is NaN). -/
def optAt (l : List (Option ℚ)) (i : Nat) : Option ℚ :=
  (l[i]?).getD none

/-- `result['ma'] - result['ma'].shift(smooth_bars)` (line 103). -/
def ma_diff_list (ma : List (Option ℚ)) (smooth_bars : Nat) : List (Option ℚ) :=
  (List.range ma.length).map (fun i =>
    if i < smooth_bars then none
    else optSub (optAt ma i) (optAt ma (i - smooth_bars)))

/-- Defined values in the trailing window of width `len` ending at `i`. -/
def definedWindow (l : List (Option ℚ)) (i len : Nat) : List ℚ :=
  ((l.take (i + 1)).drop (i + 1 - len)).filterMap id

/-- `rolling(window=len, min_periods=1).max()`: maximum of the defined values in
the trailing window, NaN when they are all NaN. -/
def rollingMax (l : List (Option ℚ)) (len : Nat) : List (Option ℚ) :=
  (List.range l.length).map (fun i =>
    match definedWindow l i len with
    | [] => none
    | x :: xs => some (xs.foldl max x))

def rollingMin (l : List (Option ℚ)) (len : Nat) : List (Option ℚ) :=
  (List.range l.length).map (fun i =>
    match definedWindow l i len with
    | [] => none
    | x :: xs => some (xs.foldl min x))

/-- `.replace(0, np.nan)` on a float cell. -/
def replaceZeroNaN : Option ℚ → Option ℚ
  | some q => if q = 0 then none else some q
  | none => none

/-- The normalized slope before any fills (lines 100-113): `ma_diff`,
rolling min/max over `lookback` bars, zero range replaced by NaN, then
`slope = 100 · ma_diff / range`. -/
def slopeOfDiff (md : List (Option ℚ)) (lookback : Nat) : List (Option ℚ) :=
  let ma_range := (List.zipWith optSub (rollingMax md lookback) (rollingMin md lookback)).map
    replaceZeroNaN
  List.zipWith (fun d r =>
    match d, r with
    | some dv, some rv => some (100 * dv / rv)
    | _, _ => none) md ma_range

def slope_raw (closes : List ℚ) (smooth_bars ma_length : Nat) (ma_type : String)
    (lookback : Nat) : Except String (List (Option ℚ)) :=
  match calculate_ma closes ma_type ma_length with
  | .error e => .error e
  | .ok ma => .ok (slopeOfDiff (ma_diff_list ma smooth_bars) lookback)

/-- `slope_change = abs(slope - slope.shift(1)) * smooth_bars * 2` (line 116). -/
def slope_change_list (slope : List (Option ℚ)) (smooth_bars : Nat) : List (Option ℚ) :=
  (List.range slope.length).map (fun i =>
    if i = 0 then none
    else
      match optAt slope i, optAt slope (i - 1) with
      | some a, some b => some (|a - b| * (smooth_bars : ℚ) * 2)
      | _, _ => none)

/-- `acceleration = 50 * slope_change / accel_high` with a fixed 200-bar rolling
maximum and zero replaced by NaN (lines 116-119). -/
def acceleration_raw (slope : List (Option ℚ)) (smooth_bars : Nat) : List (Option ℚ) :=
  let sc := slope_change_list slope smooth_bars
  let ah := (rollingMax sc 200).map replaceZeroNaN
  List.zipWith (fun c h =>
    match c, h with
    | some cv, some hv => some (50 * cv / hv)
    | _, _ => none) sc ah

/-- `result['in_ntz'] = (result['slope'].abs() <= ntz_threshold)` (line 122),
evaluated on the raw (pre-fill) slope.  pandas elementwise comparison against a
NaN cell yields `False`, so the boolean column holds `False` wherever the slope
is NaN; the later `fillna(True)` (line 167) acts on a boolean column without
NaN and changes nothing. -/
def in_ntz_list (slope : List (Option ℚ)) (ntz_threshold : ℚ) : List Bool :=
  slope.map (fun s =>
    match s with
    | some v => decide (|v| ≤ ntz_threshold)
    | none => false)

/-- `.bfill()`: a NaN cell takes the nearest later defined value. -/
def bfill : List (Option ℚ) → List (Option ℚ)
  | [] => []
  | x :: xs =>
    let rest := bfill xs
    (match x with
     | some v => some v
     | none =>
       match rest with
       | [] => none
       | y :: _ => y) :: rest

/-! ### Signal state machine (lines 124-159)

The loop walks bars `1..n-1` holding a position state (`FLAT`, `LONG`,
`SHORT`); bar 0 keeps the initialized `'HOLD'`.  A NaN current or previous
slope emits `HOLD` without a state change. -/

inductive Pos where
  | FLAT
  | LONG
  | SHORT
deriving DecidableEq

def signal_step (t : ℚ) (pos : Pos) (prev cur : Option ℚ) : String × Pos :=
  match cur, prev with
  | some c, some p =>
    match pos with
    | .FLAT =>
      if c > t ∧ p ≤ t then ("BUY", .LONG)
      else if c < -t ∧ p ≥ -t then ("SELL", .SHORT)
      else ("HOLD", .FLAT)
    | .LONG =>
      if c < t ∧ p ≥ t then ("EXIT_LONG", .FLAT)
      else ("HOLD", .LONG)
    | .SHORT =>
      if c > -t ∧ p ≤ -t then ("EXIT_SHORT", .FLAT)
      else ("HOLD", .SHORT)
  | _, _ => ("HOLD", pos)

def signals_from (t : ℚ) : Pos → Option ℚ → List (Option ℚ) → List String
  | _, _, [] => []
  | pos, prev, c :: rest =>
    let sp := signal_step t pos prev c
    sp.1 :: signals_from t sp.2 c rest

def generate_signals (t : ℚ) (slopes : List (Option ℚ)) : List String :=
  match slopes with
  | [] => []
  | s0 :: rest => "HOLD" :: signals_from t .FLAT s0 rest

/-- Output frame of `calculate_ema_slope` (the kept columns). -/
structure IndicatorFrame where
  ma : List (Option ℚ)
  ma_diff : List (Option ℚ)
  slope : List ℚ
  acceleration : List ℚ
  in_ntz : List Bool
  signal : List String
deriving DecidableEq

/-- `calculate_ema_slope` (lines 75-169): the pipeline over the close column.
Signals and `in_ntz` are computed from the raw slope; the returned `slope`
column is backfilled then zero-filled and `acceleration` is zero-filled
(lines 164-167). -/
def calculate_ema_slope (closes : List ℚ) (smooth_bars ma_length : Nat)
    (ntz_threshold : ℚ) (ma_type : String) (lookback : Nat) :
    Except String IndicatorFrame :=
  match calculate_ma closes ma_type ma_length with
  | .error e => .error e
  | .ok ma =>
    let sl := slopeOfDiff (ma_diff_list ma smooth_bars) lookback
    .ok {
      ma := ma
      ma_diff := ma_diff_list ma smooth_bars
      slope := (bfill sl).map (fun o => o.getD 0)
      acceleration := (acceleration_raw sl smooth_bars).map (fun o => o.getD 0)
      in_ntz := in_ntz_list sl ntz_threshold
      signal := generate_signals ntz_threshold sl }

/-- Checker for the single-open-position discipline of a signal list: scanning
left to right, no opening signal (`BUY`/`SELL`) may occur while a position
opened by an earlier signal has not been exited (`EXIT_LONG`/`EXIT_SHORT`). -/
def isOpenSig (s : String) : Bool :=
  s = "BUY" ∨ s = "SELL"

def isExitSig (s : String) : Bool :=
  s = "EXIT_LONG" ∨ s = "EXIT_SHORT"

def noDoubleOpen : Bool → List String → Bool
  | _, [] => true
  | opened, s :: rest =>
    if isOpenSig s then !opened && noDoubleOpen true rest
    else if isExitSig s then noDoubleOpen false rest
    else noDoubleOpen opened rest

/-! ### Backtest engine (`src/backtesting/engine.py`)

`BacktestEngine` is a class with mutable fields; we model its state as a record
and each method as a state transformer.  The two `self.trades.append(...)`
sites build dictionaries with different key sets, modelled by the two
constructors below (field order follows the Python dict literals). -/

inductive TradeRec where
  /-- Entry record (lines 63-72): timestamp, price, quantity, cost, commission,
  capital, position_value. -/
  | buyRec (timestamp : ℤ) (price quantity cost commission capital position_value : ℚ)
  /-- Exit record (lines 88-101): timestamp, price, quantity, value, commission,
  capital, profit, profit_pct, entry_price, entry_time, hold_duration. -/
  | sellRec (timestamp : ℤ) (price quantity value commission capital profit profit_pct
      entry_price : ℚ) (entry_time : Option ℤ) (hold_duration : Option ℤ)
deriving DecidableEq

/-- One `self.equity_curve.append(...)` record (lines 112-118). -/
structure EquityPoint where
  timestamp : ℤ
  equity : ℚ
  capital : ℚ
  position_value : ℚ
  in_position : Bool
deriving DecidableEq

structure EngineState where
  initial_capital : ℚ
  commission : ℚ
  slippage : ℚ
  capital : ℚ
  position : ℚ
  position_value : ℚ
  trades : List TradeRec
  equity_curve : List EquityPoint
  in_position : Bool
  entry_price : ℚ
  entry_time : Option ℤ
deriving DecidableEq

/-- `__init__` + `reset` (lines 15-38). -/
def reset (initial_capital commission slippage : ℚ) : EngineState :=
  { initial_capital := initial_capital
    commission := commission
    slippage := slippage
    capital := initial_capital
    position := 0
    position_value := 0
    trades := []
    equity_curve := []
    in_position := false
    entry_price := 0
    entry_time := none }

/-- `execute_trade` (lines 40-104).  The entry branch fires on `BUY` while not
in a position; the exit branch fires on `SELL` or `EXIT_LONG` while in a
position; every other signal (including `SELL` while flat and `EXIT_SHORT`
always) leaves the state untouched.  In the exit branch the Python code zeroes
`self.position` before building the dict, so the recorded `quantity` is 0.
`hold_duration` mirrors the Python conditional expression's truthiness test:
an entry time of `None` — or the falsy timestamp `0` — yields `None`. -/
def execute_trade (s : EngineState) (timestamp : ℤ) (price : ℚ) (signal : String)
    (position_size : ℚ) : EngineState :=
  if signal = "BUY" ∧ s.in_position = false then
    let buy_price := price * (1 + s.slippage)
    let position_cost := s.capital * position_size
    let commission_cost := position_cost * s.commission
    let position := (position_cost - commission_cost) / buy_price
    let capital := s.capital - position_cost
    { s with
      position := position
      capital := capital
      position_value := position * price
      in_position := true
      entry_price := buy_price
      entry_time := some timestamp
      trades := s.trades ++
        [.buyRec timestamp buy_price position position_cost commission_cost capital
          (position * price)] }
  else if (signal = "SELL" ∨ signal = "EXIT_LONG") ∧ s.in_position = true then
    let sell_price := price * (1 - s.slippage)
    let position_value := s.position * sell_price
    let commission_cost := position_value * s.commission
    let profit := position_value - s.position * s.entry_price
    let profit_pct := (sell_price / s.entry_price - 1) * 100
    let capital := s.capital + position_value - commission_cost
    { s with
      capital := capital
      position := 0
      position_value := 0
      in_position := false
      entry_price := 0
      entry_time := none
      trades := s.trades ++
        [.sellRec timestamp sell_price 0 position_value commission_cost capital profit
          profit_pct s.entry_price s.entry_time
          (match s.entry_time with
           | some et => if et = 0 then none else some (timestamp - et)
           | none => none)] }
  else s

/-- `update_equity` (lines 106-118). -/
def update_equity (s : EngineState) (timestamp : ℤ) (price : ℚ) : EngineState :=
  { s with
    equity_curve := s.equity_curve ++
      [{ timestamp := timestamp
         equity := if s.in_position then s.capital + s.position * price else s.capital
         capital := s.capital
         position_value := if s.in_position then s.position * price else 0
         in_position := s.in_position }] }

/-- One input row of the DataFrame handed to `run_backtest`. -/
structure BarRow where
  timestamp : ℤ
  close : ℚ
  signal : String
deriving DecidableEq

/-- Loop body of `run_backtest` (lines 133-143): dispatch the signal, then
append an equity point. -/
def backtest_step (position_size : ℚ) (s : EngineState) (row : BarRow) : EngineState :=
  let s1 := if row.signal = "BUY" ∨ row.signal = "SELL" ∨ row.signal = "EXIT_LONG" ∨
      row.signal = "EXIT_SHORT"
    then execute_trade s row.timestamp row.close row.signal position_size
    else s
  update_equity s1 row.timestamp row.close

def backtest_loop (initial_capital commission slippage : ℚ) (rows : List BarRow)
    (position_size : ℚ) : EngineState :=
  rows.foldl (backtest_step position_size) (reset initial_capital commission slippage)

/-- `run_backtest` (lines 120-151): reset, process every row, then force-close
any open position at the last row's close with a `SELL` signal.  The forced
close appends no equity point. -/
def run_backtest (initial_capital commission slippage : ℚ) (rows : List BarRow)
    (position_size : ℚ) : EngineState :=
  let s := backtest_loop initial_capital commission slippage rows position_size
  if s.in_position then
    match rows.getLast? with
    | some last => execute_trade s last.timestamp last.close "SELL" position_size
    | none => s
  else s

/-- `final_equity = equity_df['equity'].iloc[-1]` (line 174). -/
def final_equity (s : EngineState) : ℚ :=
  ((s.equity_curve.map EquityPoint.equity).getLast?).getD 0

/-- The `profit` field of a `SELL` record (`get_performance_metrics` filters
`type == 'SELL'` and reads `profit`, lines 164-165). -/
def tradeProfit : TradeRec → Option ℚ
  | .buyRec _ _ _ _ _ _ _ => none
  | .sellRec _ _ _ _ _ _ profit _ _ _ _ => some profit

def sellProfits (trades : List TradeRec) : List ℚ :=
  trades.filterMap tradeProfit

def sumSellProfits (trades : List TradeRec) : ℚ :=
  (sellProfits trades).sum

/-- The `commission` field of any trade record (present on both kinds). -/
def tradeCommission : TradeRec → ℚ
  | .buyRec _ _ _ _ commission _ _ => commission
  | .sellRec _ _ _ _ commission _ _ _ _ _ _ => commission

def sumCommissions (trades : List TradeRec) : ℚ :=
  (trades.map tradeCommission).sum

def tradeQuantity : TradeRec → ℚ
  | .buyRec _ _ quantity _ _ _ _ => quantity
  | .sellRec _ _ quantity _ _ _ _ _ _ _ _ => quantity

/-- A Python float that may be the `float('inf')` sentinel. -/
inductive ProfitFactor where
  | val (q : ℚ)
  | posInf
deriving DecidableEq

/-- Profit factor of `get_performance_metrics` (lines 178-191) as a function of
the sell-trade profits: winners are `profit > 0`, losers `profit <= 0`;
`abs(win_sum / loss_sum)` when there are losers with a nonzero sum, else
`float('inf')` when there is any winner, else 0. -/
def engine_profit_factor (profits : List ℚ) : ProfitFactor :=
  let winning := profits.filter (fun p => 0 < p)
  let losing := profits.filter (fun p => p ≤ 0)
  if 0 < losing.length ∧ losing.sum ≠ 0 then .val |winning.sum / losing.sum|
  else if 0 < winning.length then .posInf
  else .val 0

/-! ### Performance analyzer (`src/backtesting/analyzer.py`, lines 31-62) -/

/-- `gross_profit = winning_trades.sum() if len(winning_trades) > 0 else 0`
with winners `pnl > 0` (an empty pandas sum is 0 as well). -/
def grossProfit (pnls : List ℚ) : ℚ :=
  (pnls.filter (fun p => 0 < p)).sum

/-- `gross_loss = abs(losing_trades.sum()) if len(losing_trades) > 0 else 0`
with losers `pnl < 0`. -/
def grossLoss (pnls : List ℚ) : ℚ :=
  |(pnls.filter (fun p => p < 0)).sum|

/-- `calculate_metrics` profit factor: `_empty_metrics()` gives 0 for an empty
ledger (line 118); otherwise `gross_profit / gross_loss if gross_loss > 0 else
np.inf` (line 62). -/
def analyzer_profit_factor (pnls : List ℚ) : ProfitFactor :=
  if pnls.length = 0 then .val 0
  else if 0 < grossLoss pnls then .val (grossProfit pnls / grossLoss pnls)
  else .posInf

/-! ### Parameter optimizer (`src/backtesting/optimizer.py`, lines 34-107)

A strategy run is modelled as a function from one parameter combination to
`Option ℚ`: `some m` is a successful run whose ranking-metric value is `m`,
`none` a raised exception (logged and skipped, lines 71-73 and 89-92).
`productLists` is `itertools.product` over the grid's value lists (rightmost
factor varies fastest).  Sequential execution collects results in combination
order; parallel execution collects them in `as_completed` order, an arbitrary
permutation of the combinations.  Both then sort descending by the metric
(`sort_values(self.metric, ascending=False)`, line 104). -/

structure PPoint where
  params : List ℚ
  metric : ℚ
deriving DecidableEq

def productLists : List (List ℚ) → List (List ℚ)
  | [] => [[]]
  | vs :: rest => ((vs.map (fun v => (productLists rest).map (fun c => v :: c))).flatten)

/-- Stable insertion of `x` in front of the first element whose metric does not
exceed it: ties keep their pre-sort relative order.  (pandas `sort_values` uses
an unstable quicksort whose tie order is likewise a deterministic function of
the pre-sort order; for the claims below only the dependence of the ranked
output on the pre-sort order of ties matters.) -/
def insertDesc (x : PPoint) : List PPoint → List PPoint
  | [] => [x]
  | y :: ys => if y.metric ≤ x.metric then x :: y :: ys else y :: insertDesc x ys

def sortDesc (l : List PPoint) : List PPoint :=
  l.foldr insertDesc []

def runCombos (strategy : List ℚ → Option ℚ) (combos : List (List ℚ)) : List PPoint :=
  combos.filterMap (fun c => (strategy c).map (fun m => { params := c, metric := m }))

def grid_search_seq (strategy : List ℚ → Option ℚ) (param_grid : List (List ℚ)) :
    List PPoint :=
  sortDesc (runCombos strategy (productLists param_grid))

/-- Parallel `grid_search`: `completion_order` is the order in which
`as_completed` yields the submitted combinations — any permutation of the
grid's combinations. -/
def grid_search_par (strategy : List ℚ → Option ℚ) (completion_order : List (List ℚ)) :
    List PPoint :=
  sortDesc (runCombos strategy completion_order)

/-! ### Concrete inputs used to evaluate the embedding -/

/-- A freshly reset engine (no position, no trades). -/
def flatState : EngineState := reset 10000 (1/1000) (1/2000)

/-- The engine after a single `BUY` at price 100 with `initial_capital = 10000`,
`commission = 1%`, `slippage = 0`, `position_size = 1`: it holds 99 units
bought at 100 with 0 capital left. -/
def longState : EngineState := execute_trade (reset 10000 (1/100) 0) 0 100 "BUY" 1

/-- Two bars: a `BUY` at price 100 then an `EXIT_LONG` at price 100. -/
def roundTripRows : List BarRow := [⟨0, 100, "BUY"⟩, ⟨1, 100, "EXIT_LONG"⟩]

/-- One bar carrying a `BUY`, so the run ends with an open position. -/
def openEndRows : List BarRow := [⟨0, 100, "BUY"⟩]

/-- A strategy whose runs all succeed with the same metric value 0. -/
def tieStrategy : List ℚ → Option ℚ := fun _ => some 0

/-- A strategy whose metric is the first parameter value. -/
def headStrategy : List ℚ → Option ℚ := fun c => some (c.headD 0)

/-- `FLAT` is the only non-open position state. -/
def posOpened : Pos → Bool
  | .FLAT => false
  | .LONG => true
  | .SHORT => true

/-- Accounting invariant tying the engine's cash to its ledger: flat states
carry `initial_capital` plus recorded sell profits minus all recorded
commissions; in-position states carry the same once the held quantity is
marked at its entry price. -/
def accountOk (s : EngineState) : Prop :=
  (s.in_position = false →
    s.capital = s.initial_capital + sumSellProfits s.trades - sumCommissions s.trades)
  ∧ (s.in_position = true →
    s.capital + s.position * s.entry_price =
      s.initial_capital + sumSellProfits s.trades - sumCommissions s.trades)

/-- Descending-by-metric comparison used by the ranked result set. -/
def rdesc : PPoint → PPoint → Prop := fun a b => b.metric ≤ a.metric

instance : DecidableRel rdesc := fun a b => inferInstanceAs (Decidable (b.metric ≤ a.metric))

instance : IsTotal PPoint rdesc :=
  ⟨fun a b => le_total b.metric a.metric⟩

instance : IsTrans PPoint rdesc :=
  ⟨fun _ _ _ h1 h2 => le_trans h2 h1⟩

/-! ## Theorems -/

/-! ### Basic equations for `execute_trade` -/

theorem execute_trade_buy (s : EngineState) (t : ℤ) (p ps : ℚ)
    (h : s.in_position = false) :
    execute_trade s t p "BUY" ps =
      { s with
        position := (s.capital * ps - s.capital * ps * s.commission) / (p * (1 + s.slippage))
        capital := s.capital - s.capital * ps
        position_value :=
          (s.capital * ps - s.capital * ps * s.commission) / (p * (1 + s.slippage)) * p
        in_position := true
        entry_price := p * (1 + s.slippage)
        entry_time := some t
        trades := s.trades ++ [.buyRec t (p * (1 + s.slippage))
          ((s.capital * ps - s.capital * ps * s.commission) / (p * (1 + s.slippage)))
          (s.capital * ps) (s.capital * ps * s.commission)
          (s.capital - s.capital * ps)
          ((s.capital * ps - s.capital * ps * s.commission) / (p * (1 + s.slippage)) * p)] } := by
  simp [execute_trade, h]

theorem execute_trade_exit (s : EngineState) (t : ℤ) (p ps : ℚ) (sig : String)
    (h : s.in_position = true) (hsig : sig = "SELL" ∨ sig = "EXIT_LONG") :
    execute_trade s t p sig ps =
      { s with
        capital := s.capital + s.position * (p * (1 - s.slippage)) -
          s.position * (p * (1 - s.slippage)) * s.commission
        position := 0
        position_value := 0
        in_position := false
        entry_price := 0
        entry_time := none
        trades := s.trades ++ [.sellRec t (p * (1 - s.slippage)) 0
          (s.position * (p * (1 - s.slippage)))
          (s.position * (p * (1 - s.slippage)) * s.commission)
          (s.capital + s.position * (p * (1 - s.slippage)) -
            s.position * (p * (1 - s.slippage)) * s.commission)
          (s.position * (p * (1 - s.slippage)) - s.position * s.entry_price)
          ((p * (1 - s.slippage) / s.entry_price - 1) * 100)
          s.entry_price s.entry_time
          (match s.entry_time with
           | some et => if et = 0 then none else some (t - et)
           | none => none)] } := by
  rcases hsig with hsig | hsig <;> subst hsig <;> simp [execute_trade, h]

theorem execute_trade_other (s : EngineState) (t : ℤ) (p ps : ℚ) (sig : String)
    (hb : ¬(sig = "BUY" ∧ s.in_position = false))
    (hs : ¬((sig = "SELL" ∨ sig = "EXIT_LONG") ∧ s.in_position = true)) :
    execute_trade s t p sig ps = s := by
  simp only [execute_trade, if_neg hb, if_neg hs]

/-- `EXIT_SHORT` never matches either branch of `execute_trade`. -/
theorem execute_trade_exit_short (s : EngineState) (t : ℤ) (p ps : ℚ) :
    execute_trade s t p "EXIT_SHORT" ps = s := by
  apply execute_trade_other <;> simp

/-- `SELL` while not in a position matches neither branch of `execute_trade`. -/
theorem execute_trade_sell_flat (s : EngineState) (t : ℤ) (p ps : ℚ)
    (h : s.in_position = false) :
    execute_trade s t p "SELL" ps = s := by
  apply execute_trade_other <;> simp [h]

/-! ### C1: short positions -/

/-- C1: the claim says that on `SELL` while the engine is flat, `execute_trade`
opens a short position recording entry price and entry time, and that
`EXIT_SHORT` (or `BUY` while short) closes it.  Counterexample: on a freshly
reset engine a `SELL` (and an `EXIT_SHORT`) leaves the state completely
unchanged — no entry time or price is recorded, no trade is appended, so no
short position is opened. -/
theorem C1_counterexample :
    execute_trade flatState 5 100 "SELL" 1 = flatState ∧
    execute_trade flatState 5 100 "EXIT_SHORT" 1 = flatState ∧
    flatState.in_position = false ∧ flatState.trades = [] ∧
    flatState.entry_time = none := by
  refine ⟨execute_trade_sell_flat flatState 5 100 1 rfl,
    execute_trade_exit_short flatState 5 100 1, rfl, rfl, rfl⟩

/-- C1 (amended): the engine supports long positions only.  `execute_trade`
ignores `SELL` while no position is held and ignores `EXIT_SHORT` in every
state: the state is returned unchanged, so no short position is ever opened or
closed and no short `Trade` is ever appended. -/
theorem C1_amended (s : EngineState) (t : ℤ) (p ps : ℚ) :
    (s.in_position = false → execute_trade s t p "SELL" ps = s) ∧
    execute_trade s t p "EXIT_SHORT" ps = s :=
  ⟨fun h => execute_trade_sell_flat s t p ps h, execute_trade_exit_short s t p ps⟩

/-- Witness for `C1_amended` at a concrete flat state. -/
theorem C1_amended_witness : execute_trade flatState 7 50 "SELL" (1/2) = flatState :=
  (C1_amended flatState 7 50 (1/2)).1 rfl

/-! ### C2: long-exit accounting -/

/-- C2: the claim says the recorded pnl is
`proceeds − commission_cost − quantity·entry_price`.  Counterexample: exiting
`longState` (99 units bought at entry price 100, commission 1%) at price 100
appends a sell record whose `profit` field is 0 — the code's
`position_value - position*entry_price` — whereas the claim's formula gives
`9900 − 99 − 99·100 = −99`. -/
theorem C2_counterexample :
    (execute_trade longState 1 100 "EXIT_LONG" 1).trades =
      [.buyRec 0 100 99 10000 100 0 9900,
       .sellRec 1 100 0 9900 99 9801 0 0 100 (some 0) none] ∧
    (0 : ℚ) ≠ 9900 - 99 - 99 * 100 := by
  constructor
  · norm_num [longState, execute_trade, reset]
  · norm_num

/-- C2 (amended): on `SELL`/`EXIT_LONG` while in a position at price `p`, the
engine computes `sell_price = p·(1−slippage)`, `proceeds = quantity·sell_price`,
`commission_cost = proceeds·commission`, credits capital by
`proceeds − commission_cost`, and records the trade's pnl as
`proceeds − quantity·entry_price` — the commission is deducted from capital but
NOT subtracted from the recorded pnl. -/
theorem C2_amended (s : EngineState) (t : ℤ) (p ps : ℚ) (sig : String)
    (h : s.in_position = true) (hsig : sig = "SELL" ∨ sig = "EXIT_LONG") :
    (execute_trade s t p sig ps).capital =
      s.capital + s.position * (p * (1 - s.slippage)) -
        s.position * (p * (1 - s.slippage)) * s.commission ∧
    (execute_trade s t p sig ps).trades = s.trades ++
      [.sellRec t (p * (1 - s.slippage)) 0 (s.position * (p * (1 - s.slippage)))
        (s.position * (p * (1 - s.slippage)) * s.commission)
        (s.capital + s.position * (p * (1 - s.slippage)) -
          s.position * (p * (1 - s.slippage)) * s.commission)
        (s.position * (p * (1 - s.slippage)) - s.position * s.entry_price)
        ((p * (1 - s.slippage) / s.entry_price - 1) * 100) s.entry_price s.entry_time
        (match s.entry_time with
         | some et => if et = 0 then none else some (t - et)
         | none => none)] := by
  rw [execute_trade_exit s t p ps sig h hsig]
  exact ⟨rfl, rfl⟩

/-- Witness for `C2_amended`: the concrete round trip credits capital to
`0 + 9900 − 99 = 9801`. -/
theorem C2_amended_witness :
    (execute_trade longState 1 100 "EXIT_LONG" 1).capital = 9801 := by
  have h := (C2_amended longState 1 100 1 "EXIT_LONG" rfl (Or.inr rfl)).1
  rw [h]
  norm_num [longState, execute_trade, reset]

/-! ### C7: unknown moving-average type -/

/-- C7: for every `ma_type` outside `{SMA, EMA, DEMA, TEMA, WMA, HMA}`,
`calculate_ma` fails — it raises the configuration error for an unknown MA
type (a `ValueError` carrying `"Unknown MA type: ..."`) for every input series
and length. -/
theorem C7_unknown_ma_type (series : List ℚ) (ma_type : String) (length : Nat)
    (h : ma_type ∉ (["SMA", "EMA", "DEMA", "TEMA", "WMA", "HMA"] : List String)) :
    calculate_ma series ma_type length = .error ("Unknown MA type: " ++ ma_type) := by
  simp only [List.mem_cons, List.not_mem_nil, or_false, not_or] at h
  obtain ⟨h1, h2, h3, h4, h5, h6⟩ := h
  simp [calculate_ma, h1, h2, h3, h4, h5, h6]

/-- Witness for `C7_unknown_ma_type` at the unknown type `"XYZ"`. -/
theorem C7_unknown_ma_type_witness :
    ("XYZ" : String) ∉ (["SMA", "EMA", "DEMA", "TEMA", "WMA", "HMA"] : List String) ∧
    calculate_ma [1, 2] "XYZ" 3 = .error ("Unknown MA type: " ++ "XYZ") :=
  ⟨by decide, C7_unknown_ma_type [1, 2] "XYZ" 3 (by decide)⟩

/-! ### C9: the quantity recorded on exit trades -/

/-- C9: every exit appends exactly one trade record, and that record's
`quantity` field is 0 regardless of the quantity actually held, because the
engine zeroes `self.position` before building the record. -/
theorem C9_exit_quantity_zero (s : EngineState) (t : ℤ) (p ps : ℚ) (sig : String)
    (h : s.in_position = true) (hsig : sig = "SELL" ∨ sig = "EXIT_LONG") :
    ((execute_trade s t p sig ps).trades.getLast?).map tradeQuantity = some 0 ∧
    (execute_trade s t p sig ps).trades.length = s.trades.length + 1 := by
  rw [execute_trade_exit s t p ps sig h hsig]
  constructor
  · simp [tradeQuantity]
  · simp

/-- Witness for `C9_exit_quantity_zero`: the engine holds 99 units, yet the
appended exit record carries quantity 0. -/
theorem C9_exit_quantity_zero_witness :
    longState.position = 99 ∧
    ((execute_trade longState 2 105 "SELL" 1).trades.getLast?).map tradeQuantity =
      some 0 := by
  constructor
  · norm_num [longState, execute_trade, reset]
  · exact (C9_exit_quantity_zero longState 2 105 1 "SELL" rfl (Or.inl rfl)).1

/-! ### C5: the in-NTZ flag on undefined slopes -/

/-- C5: the claim says `in_ntz` is `|slope| ≤ ntz_threshold` for defined slopes
and `true` where the slope is undefined.  Evaluation at a concrete input where
every slope is undefined (two bars, `smooth_bars = 1`, EMA length 2,
`lookback = 5`: bar 0 has no `ma_diff`, bar 1 has zero rolling range): the code
yields `in_ntz = false` on those bars, because the pandas comparison
`slope.abs() <= t` is `False` on a NaN cell and the subsequent `fillna(True)`
acts on a NaN-free boolean column.  The third conjunct checks the two sides of
the flag in isolation: a defined slope inside the band maps to `true`, an
undefined slope to `false` (the claim expects `true`). -/
theorem C5_undefined_slope_not_in_ntz :
    slope_raw [100, 101] 1 2 "EMA" 5 = .ok [none, none] ∧
    (calculate_ema_slope [100, 101] 1 2 10 "EMA" 5).map IndicatorFrame.in_ntz =
      .ok [false, false] ∧
    in_ntz_list [some 3, none] 10 = [true, false] := by
  have hma : calculate_ma [100, 101] "EMA" 2 = .ok ((ema [100, 101] 2).map some) := rfl
  refine ⟨?_, ?_, ?_⟩
  · norm_num [slope_raw, hma, ma_diff_list, ema, emaGo, optSub, optAt, slopeOfDiff,
      rollingMax, rollingMin, definedWindow, replaceZeroNaN, List.range_succ, List.filterMap,
      List.foldl]
  · norm_num [calculate_ema_slope, hma, ma_diff_list, ema, emaGo, optSub, optAt, slopeOfDiff,
      rollingMax, rollingMin, definedWindow, replaceZeroNaN, List.range_succ, List.filterMap,
      List.foldl, in_ntz_list, Except.map]
  · norm_num [in_ntz_list]

/-! ### C6: profit factor -/

theorem sum_filter_pos_nonneg (l : List ℚ) : 0 ≤ (l.filter (fun p => 0 < p)).sum := by
  apply List.sum_nonneg
  intro x hx
  have hx' := List.mem_filter.mp hx
  have : 0 < x := by simpa using hx'.2
  exact le_of_lt this

theorem sum_filter_pos_pos (l : List ℚ) (h : l.filter (fun p => 0 < p) ≠ []) :
    0 < (l.filter (fun p => 0 < p)).sum := by
  apply List.sum_pos
  · intro x hx
    have hx' := List.mem_filter.mp hx
    simpa using hx'.2
  · exact h

theorem filter_pos_nil_of_sum_zero (l : List ℚ) (h : (l.filter (fun p => 0 < p)).sum = 0) :
    l.filter (fun p => 0 < p) = [] := by
  by_contra hne
  exact absurd h (ne_of_gt (sum_filter_pos_pos l hne))

/-- C6 (amended): the profit factor of `get_performance_metrics` (engine)
matches the claim: it is the `+∞` sentinel exactly when the gross loss (sum
over trades with `profit ≤ 0`) is zero and the gross profit is positive, it is
0 when gross profit and gross loss are both zero, and otherwise it is gross
profit over `|gross loss|`.  The analyzer's `calculate_metrics`, however,
returns `+∞` whenever its gross loss (over trades with `pnl < 0`) is zero on a
NONEMPTY ledger — even when the gross profit is zero too — and returns 0 only
for the empty ledger. -/
theorem C6_amended :
    (∀ profits : List ℚ,
      (engine_profit_factor profits = .posInf ↔
        (profits.filter (fun p => p ≤ 0)).sum = 0 ∧
          0 < (profits.filter (fun p => 0 < p)).sum) ∧
      ((profits.filter (fun p => p ≤ 0)).sum ≠ 0 →
        engine_profit_factor profits =
          .val ((profits.filter (fun p => 0 < p)).sum /
            |(profits.filter (fun p => p ≤ 0)).sum|)) ∧
      ((profits.filter (fun p => 0 < p)).sum = 0 ∧
          (profits.filter (fun p => p ≤ 0)).sum = 0 →
        engine_profit_factor profits = .val 0)) ∧
    (∀ pnls : List ℚ,
      (analyzer_profit_factor pnls = .posInf ↔ pnls ≠ [] ∧ grossLoss pnls = 0) ∧
      (pnls ≠ [] → grossLoss pnls ≠ 0 →
        analyzer_profit_factor pnls = .val (grossProfit pnls / grossLoss pnls))) ∧
    analyzer_profit_factor [] = .val 0 := by
  refine ⟨fun profits => ?_, fun pnls => ?_, rfl⟩
  · set W := profits.filter (fun p => 0 < p) with hW
    set L := profits.filter (fun p => p ≤ 0) with hL
    refine ⟨?_, ?_, ?_⟩
    · constructor
      · intro h
        by_cases hc : 0 < L.length ∧ L.sum ≠ 0
        · rw [engine_profit_factor, if_pos hc] at h
          exact absurd h (by simp)
        · by_cases hw : 0 < W.length
          · refine ⟨?_, ?_⟩
            · rcases Nat.eq_zero_or_pos L.length with h0 | hpos
              · rw [List.length_eq_zero] at h0
                rw [h0]; rfl
              · by_contra hsum
                exact hc ⟨hpos, hsum⟩
            · refine sum_filter_pos_pos profits ?_
              intro hnil
              have hw0 : W.length = 0 := by
                show (profits.filter (fun p => 0 < p)).length = 0
                rw [hnil]
                rfl
              omega
          · rw [engine_profit_factor, if_neg hc, if_neg hw] at h
            exact absurd h (by simp)
      · rintro ⟨hLsum, hWsum⟩
        have hc : ¬(0 < L.length ∧ L.sum ≠ 0) := fun hc => hc.2 hLsum
        have hw : 0 < W.length := by
          by_contra hcon
          have h0len : W.length = 0 := by omega
          have h0 : W = [] := List.length_eq_zero.mp h0len
          have hz : W.sum = 0 := by rw [h0]; rfl
          rw [hz] at hWsum
          exact absurd hWsum (by simp)
        rw [engine_profit_factor, if_neg hc, if_pos hw]
    · intro hsum
      have hlen : 0 < L.length := by
        rcases Nat.eq_zero_or_pos L.length with h0 | hpos
        · rw [List.length_eq_zero] at h0
          rw [h0] at hsum
          exact absurd rfl hsum
        · exact hpos
      rw [engine_profit_factor, if_pos ⟨hlen, hsum⟩, abs_div,
        abs_of_nonneg (sum_filter_pos_nonneg profits)]
    · rintro ⟨hWsum, hLsum⟩
      have hc : ¬(0 < L.length ∧ L.sum ≠ 0) := fun hc => hc.2 hLsum
      have hw : ¬0 < W.length := by
        have hnil : W = [] := by
          rw [hW]
          exact filter_pos_nil_of_sum_zero profits (hW ▸ hWsum)
        rw [hnil]; simp
      rw [engine_profit_factor, if_neg hc, if_neg hw]
  · have hgl : 0 ≤ grossLoss pnls := abs_nonneg _
    constructor
    · constructor
      · intro h
        by_cases hlen : pnls.length = 0
        · rw [analyzer_profit_factor, if_pos hlen] at h
          exact absurd h (by simp)
        · by_cases hpos : 0 < grossLoss pnls
          · rw [analyzer_profit_factor, if_neg hlen, if_pos hpos] at h
            exact absurd h (by simp)
          · refine ⟨fun hnil => hlen (by rw [hnil]; rfl), le_antisymm (not_lt.mp hpos) hgl⟩
      · rintro ⟨hne, hzero⟩
        have hlen : ¬pnls.length = 0 := fun h => hne (List.length_eq_zero.mp h)
        have hpos : ¬0 < grossLoss pnls := by rw [hzero]; simp
        rw [analyzer_profit_factor, if_neg hlen, if_neg hpos]
    · intro hne hzero
      have hlen : ¬pnls.length = 0 := fun h => hne (List.length_eq_zero.mp h)
      have hpos : 0 < grossLoss pnls := lt_of_le_of_ne hgl (Ne.symm hzero)
      rw [analyzer_profit_factor, if_neg hlen, if_pos hpos]

/-- C6: the claim says the profit factor is 0 when gross profit and gross loss
are both zero.  Counterexample: a ledger holding one trade with pnl 0 has gross
profit 0 and gross loss 0, yet the analyzer's profit factor is the `+∞`
sentinel (`np.inf`), not 0. -/
theorem C6_counterexample :
    analyzer_profit_factor [0] = .posInf ∧ grossProfit [0] = 0 ∧ grossLoss [0] = 0 := by
  refine ⟨?_, ?_, ?_⟩ <;> norm_num [analyzer_profit_factor, grossProfit, grossLoss]

/-- Witness for `C6_amended`: one winner of 2 and one loser of 1 give an engine
profit factor of `2/1`. -/
theorem C6_amended_witness : engine_profit_factor [2, -1] = .val 2 := by
  have h := (C6_amended.1 [2, -1]).2.1 (by norm_num)
  rw [h]
  norm_num

/-! ### C8: single-position discipline of the signal machine -/

theorem noDoubleOpen_signals_from (t : ℚ) :
    ∀ (slopes : List (Option ℚ)) (pos : Pos) (prev : Option ℚ),
      noDoubleOpen (posOpened pos) (signals_from t pos prev slopes) = true := by
  intro slopes
  induction slopes with
  | nil => intro pos prev; rfl
  | cons c rest ih =>
    intro pos prev
    rcases prev with _ | pv
    · rcases c with _ | cv <;>
        · simp only [signals_from, signal_step]
          simpa [noDoubleOpen, isOpenSig, isExitSig] using ih pos _
    · rcases c with _ | cv
      · simp only [signals_from, signal_step]
        simpa [noDoubleOpen, isOpenSig, isExitSig] using ih pos _
      · cases pos with
        | FLAT =>
          simp only [signals_from, signal_step]
          split_ifs with h1 h2
          · simpa [noDoubleOpen, isOpenSig, isExitSig, posOpened] using ih .LONG _
          · simpa [noDoubleOpen, isOpenSig, isExitSig, posOpened] using ih .SHORT _
          · simpa [noDoubleOpen, isOpenSig, isExitSig, posOpened] using ih .FLAT _
        | LONG =>
          simp only [signals_from, signal_step]
          split_ifs with h1
          · simpa [noDoubleOpen, isOpenSig, isExitSig, posOpened] using ih .FLAT _
          · simpa [noDoubleOpen, isOpenSig, isExitSig, posOpened] using ih .LONG _
        | SHORT =>
          simp only [signals_from, signal_step]
          split_ifs with h1
          · simpa [noDoubleOpen, isOpenSig, isExitSig, posOpened] using ih .FLAT _
          · simpa [noDoubleOpen, isOpenSig, isExitSig, posOpened] using ih .SHORT _

/-- C8: for every slope sequence and threshold, the signal sequence emitted by
the state machine of `calculate_ema_slope` (bar 0 `HOLD`, then the per-bar
transition) never contains two position-opening signals (`BUY`/`SELL`) without
an intervening exit (`EXIT_LONG`/`EXIT_SHORT`): starting from `FLAT`, at most
one position is open at any time. -/
theorem C8_single_position (t : ℚ) (slopes : List (Option ℚ)) :
    noDoubleOpen false (generate_signals t slopes) = true := by
  cases slopes with
  | nil => rfl
  | cons s0 rest =>
    have h := noDoubleOpen_signals_from t rest .FLAT s0
    simpa [generate_signals, noDoubleOpen, isOpenSig, isExitSig, posOpened] using h

/-! ### Engine state bookkeeping lemmas -/

theorem execute_trade_equity_curve (s : EngineState) (t : ℤ) (p : ℚ) (sig : String)
    (ps : ℚ) : (execute_trade s t p sig ps).equity_curve = s.equity_curve := by
  simp only [execute_trade]
  split_ifs <;> rfl

theorem execute_trade_config (s : EngineState) (t : ℤ) (p : ℚ) (sig : String) (ps : ℚ) :
    (execute_trade s t p sig ps).initial_capital = s.initial_capital ∧
    (execute_trade s t p sig ps).commission = s.commission ∧
    (execute_trade s t p sig ps).slippage = s.slippage := by
  simp only [execute_trade]
  split_ifs <;> exact ⟨rfl, rfl, rfl⟩

theorem update_equity_fields (s : EngineState) (t : ℤ) (p : ℚ) :
    (update_equity s t p).capital = s.capital ∧
    (update_equity s t p).in_position = s.in_position ∧
    (update_equity s t p).position = s.position ∧
    (update_equity s t p).trades = s.trades ∧
    (update_equity s t p).initial_capital = s.initial_capital ∧
    (update_equity s t p).commission = s.commission ∧
    (update_equity s t p).slippage = s.slippage ∧
    (update_equity s t p).entry_price = s.entry_price :=
  ⟨rfl, rfl, rfl, rfl, rfl, rfl, rfl, rfl⟩

theorem backtest_step_eq (ps : ℚ) (s : EngineState) (row : BarRow) :
    backtest_step ps s row =
      update_equity
        (if row.signal = "BUY" ∨ row.signal = "SELL" ∨ row.signal = "EXIT_LONG" ∨
            row.signal = "EXIT_SHORT"
          then execute_trade s row.timestamp row.close row.signal ps
          else s)
        row.timestamp row.close := rfl

theorem backtest_step_equity_len (ps : ℚ) (s : EngineState) (row : BarRow) :
    (backtest_step ps s row).equity_curve.length = s.equity_curve.length + 1 := by
  rw [backtest_step_eq]
  split_ifs with h <;>
    simp [update_equity, execute_trade_equity_curve]

theorem backtest_step_config (ps : ℚ) (s : EngineState) (row : BarRow) :
    (backtest_step ps s row).initial_capital = s.initial_capital ∧
    (backtest_step ps s row).commission = s.commission ∧
    (backtest_step ps s row).slippage = s.slippage := by
  rw [backtest_step_eq]
  split_ifs with h
  · exact execute_trade_config s row.timestamp row.close row.signal ps
  · exact ⟨rfl, rfl, rfl⟩

theorem foldl_step_equity_len (ps : ℚ) :
    ∀ (rows : List BarRow) (s : EngineState),
      ((rows.foldl (backtest_step ps) s).equity_curve).length =
        s.equity_curve.length + rows.length := by
  intro rows
  induction rows with
  | nil => intro s; simp
  | cons r rs ih =>
    intro s
    simp only [List.foldl_cons, List.length_cons]
    rw [ih, backtest_step_equity_len]
    omega

theorem foldl_step_config (ps : ℚ) :
    ∀ (rows : List BarRow) (s : EngineState),
      ((rows.foldl (backtest_step ps) s).initial_capital = s.initial_capital) ∧
      ((rows.foldl (backtest_step ps) s).commission = s.commission) ∧
      ((rows.foldl (backtest_step ps) s).slippage = s.slippage) := by
  intro rows
  induction rows with
  | nil => intro s; exact ⟨rfl, rfl, rfl⟩
  | cons r rs ih =>
    intro s
    simp only [List.foldl_cons]
    obtain ⟨h1, h2, h3⟩ := ih (backtest_step ps s r)
    obtain ⟨g1, g2, g3⟩ := backtest_step_config ps s r
    exact ⟨h1.trans g1, h2.trans g2, h3.trans g3⟩

theorem final_equity_update (s : EngineState) (t : ℤ) (p : ℚ) :
    final_equity (update_equity s t p) =
      if s.in_position then s.capital + s.position * p else s.capital := by
  simp [final_equity, update_equity]

theorem final_equity_execute (s : EngineState) (t : ℤ) (p : ℚ) (sig : String) (ps : ℚ) :
    final_equity (execute_trade s t p sig ps) = final_equity s := by
  rw [final_equity, final_equity, execute_trade_equity_curve]

/-- The last equity point of a nonempty run marks any open position to market
at the last bar's raw close. -/
theorem loop_final_equity (ic cm sl ps : ℚ) (rows : List BarRow) (r : BarRow)
    (hr : rows.getLast? = some r) :
    final_equity (backtest_loop ic cm sl rows ps) =
      (if (backtest_loop ic cm sl rows ps).in_position then
        (backtest_loop ic cm sl rows ps).capital +
          (backtest_loop ic cm sl rows ps).position * r.close
      else (backtest_loop ic cm sl rows ps).capital) := by
  rcases List.eq_nil_or_concat rows with h | ⟨rs, r', h⟩
  · subst h; simp at hr
  · subst h
    simp only [List.concat_eq_append] at hr ⊢
    rw [List.getLast?_concat] at hr
    obtain rfl : r' = r := by injection hr
    rw [backtest_loop, List.foldl_append, List.foldl_cons, List.foldl_nil]
    rw [backtest_step_eq]
    rw [final_equity_update]
    rfl

/-! ### C10: equity points per row and the final equity of open-ended runs -/

/-- C10: `run_backtest` appends exactly one equity point per input row (the
end-of-series forced close appends none), and when a position is still open
after the last bar, the reported `final_equity` is the mark-to-market value
`capital + quantity·close` at the raw close price, which exceeds the
post-forced-close capital by exactly the slippage-and-commission haircut
`quantity·close·(slippage + commission − slippage·commission)` that the forced
close deducts. -/
theorem C10_equity_curve (ic cm sl : ℚ) (rows : List BarRow) (ps : ℚ) :
    (run_backtest ic cm sl rows ps).equity_curve.length = rows.length ∧
    (∀ r, rows.getLast? = some r →
      (backtest_loop ic cm sl rows ps).in_position = true →
      final_equity (run_backtest ic cm sl rows ps) =
        (backtest_loop ic cm sl rows ps).capital +
          (backtest_loop ic cm sl rows ps).position * r.close ∧
      final_equity (run_backtest ic cm sl rows ps) =
        (run_backtest ic cm sl rows ps).capital +
          (backtest_loop ic cm sl rows ps).position * r.close * (sl + cm - sl * cm)) := by
  constructor
  · rw [run_backtest]
    have hlen : (backtest_loop ic cm sl rows ps).equity_curve.length = rows.length := by
      rw [backtest_loop, foldl_step_equity_len]
      simp [reset]
    split_ifs with h
    · cases hlast : rows.getLast? with
      | none => exact hlen
      | some r => rw [execute_trade_equity_curve]; exact hlen
    · exact hlen
  · intro r hr hpos
    have hrun : run_backtest ic cm sl rows ps =
        execute_trade (backtest_loop ic cm sl rows ps) r.timestamp r.close "SELL" ps := by
      rw [run_backtest]
      simp only [hpos, if_true, hr]
    have hfe : final_equity (run_backtest ic cm sl rows ps) =
        (backtest_loop ic cm sl rows ps).capital +
          (backtest_loop ic cm sl rows ps).position * r.close := by
      rw [hrun, final_equity_execute, loop_final_equity ic cm sl ps rows r hr, if_pos hpos]
    refine ⟨hfe, ?_⟩
    obtain ⟨_, hcm, hsl⟩ := foldl_step_config ps rows (reset ic cm sl)
    have hcm' : (backtest_loop ic cm sl rows ps).commission = cm := by
      rw [backtest_loop, hcm]; rfl
    have hsl' : (backtest_loop ic cm sl rows ps).slippage = sl := by
      rw [backtest_loop, hsl]; rfl
    have hexit := execute_trade_exit (backtest_loop ic cm sl rows ps) r.timestamp r.close ps
      "SELL" hpos (Or.inl rfl)
    have hcap : (run_backtest ic cm sl rows ps).capital =
        (backtest_loop ic cm sl rows ps).capital +
          (backtest_loop ic cm sl rows ps).position * (r.close * (1 - sl)) -
          (backtest_loop ic cm sl rows ps).position * (r.close * (1 - sl)) * cm := by
      rw [hrun, hexit]
      simp [hcm', hsl']
    rw [hfe, hcap]
    ring

/-! ### C3: the accounting round-trip law -/

theorem sumSellProfits_append (l : List TradeRec) (r : TradeRec) :
    sumSellProfits (l ++ [r]) = sumSellProfits l + (tradeProfit r).getD 0 := by
  rw [sumSellProfits, sumSellProfits, sellProfits, sellProfits, List.filterMap_append,
    List.sum_append]
  cases r <;> simp [tradeProfit]

theorem sumCommissions_append (l : List TradeRec) (r : TradeRec) :
    sumCommissions (l ++ [r]) = sumCommissions l + tradeCommission r := by
  simp [sumCommissions]

theorem accountOk_reset (ic cm sl : ℚ) : accountOk (reset ic cm sl) := by
  constructor
  · intro _
    simp [reset, sumSellProfits, sellProfits, sumCommissions]
  · intro h
    simp [reset] at h

theorem accountOk_execute (s : EngineState) (t : ℤ) (p ps : ℚ) (sig : String)
    (hp : p * (1 + s.slippage) ≠ 0) (h : accountOk s) :
    accountOk (execute_trade s t p sig ps) := by
  by_cases hb : sig = "BUY" ∧ s.in_position = false
  · obtain ⟨hb1, hb2⟩ := hb
    subst hb1
    rw [execute_trade_buy s t p ps hb2]
    constructor
    · intro hfalse
      simp at hfalse
    · intro _
      have hbase := h.1 hb2
      simp only [sumSellProfits_append, sumCommissions_append, tradeProfit, tradeCommission,
        Option.getD_none]
      rw [div_mul_cancel₀ _ hp, hbase]
      ring
  · by_cases hs : (sig = "SELL" ∨ sig = "EXIT_LONG") ∧ s.in_position = true
    · obtain ⟨hs1, hs2⟩ := hs
      rw [execute_trade_exit s t p ps sig hs2 hs1]
      constructor
      · intro _
        have hbase := h.2 hs2
        simp only [sumSellProfits_append, sumCommissions_append, tradeProfit, tradeCommission,
          Option.getD_some]
        rw [show s.initial_capital = s.capital + s.position * s.entry_price -
          sumSellProfits s.trades + sumCommissions s.trades by rw [hbase]; ring]
        ring
      · intro hfalse
        simp at hfalse
    · rw [execute_trade_other s t p ps sig hb hs]
      exact h

theorem accountOk_update (s : EngineState) (t : ℤ) (p : ℚ) :
    accountOk (update_equity s t p) ↔ accountOk s := Iff.rfl

theorem accountOk_step (ps : ℚ) (s : EngineState) (row : BarRow)
    (hclose : row.close * (1 + s.slippage) ≠ 0) (h : accountOk s) :
    accountOk (backtest_step ps s row) := by
  rw [backtest_step_eq, accountOk_update]
  split_ifs with hsig
  · exact accountOk_execute s row.timestamp row.close ps row.signal hclose h
  · exact h

theorem accountOk_foldl (ps : ℚ) :
    ∀ (rows : List BarRow) (s : EngineState), 0 ≤ s.slippage →
      (∀ r ∈ rows, 0 < r.close) → accountOk s →
      accountOk (rows.foldl (backtest_step ps) s) := by
  intro rows
  induction rows with
  | nil => intro s _ _ h; exact h
  | cons r rs ih =>
    intro s hsl hclose h
    have hc : 0 < r.close := hclose r (List.mem_cons_self r rs)
    have hne : r.close * (1 + s.slippage) ≠ 0 :=
      ne_of_gt (mul_pos hc (by linarith))
    simp only [List.foldl_cons]
    refine ih (backtest_step ps s r) ?_ (fun x hx => hclose x (List.mem_cons_of_mem r hx))
      (accountOk_step ps s r hne h)
    rw [(backtest_step_config ps s r).2.2]
    exact hsl

/-- C3 (amended): for every run whose bar loop ends with no open position (so
the forced close does not fire), the sum of the recorded per-trade pnl equals
`final_equity − initial_capital` PLUS the total of all recorded commissions
(entry and exit): the recorded pnl is gross of commissions, so the claimed
equality `Σ pnl = final_equity − initial_capital` holds only when the total
commission is zero.  (Prices are assumed positive and slippage nonnegative, as
for real bars; otherwise the entry division is degenerate.) -/
theorem C3_amended (ic cm sl ps : ℚ) (rows : List BarRow)
    (hne : rows ≠ [])
    (hclose : ∀ r ∈ rows, 0 < r.close)
    (hsl : 0 ≤ sl)
    (hflat : (backtest_loop ic cm sl rows ps).in_position = false) :
    sumSellProfits (run_backtest ic cm sl rows ps).trades =
      final_equity (run_backtest ic cm sl rows ps) - ic +
        sumCommissions (run_backtest ic cm sl rows ps).trades := by
  have hrun : run_backtest ic cm sl rows ps = backtest_loop ic cm sl rows ps := by
    rw [run_backtest]
    simp [hflat]
  rw [hrun]
  have hOk : accountOk (backtest_loop ic cm sl rows ps) := by
    refine accountOk_foldl ps rows (reset ic cm sl) ?_ hclose (accountOk_reset ic cm sl)
    show (0 : ℚ) ≤ sl
    exact hsl
  have hic : (backtest_loop ic cm sl rows ps).initial_capital = ic := by
    rw [backtest_loop, (foldl_step_config ps rows (reset ic cm sl)).1]
    rfl
  have hcap := hOk.1 hflat
  obtain ⟨r, hr⟩ : ∃ r, rows.getLast? = some r := by
    cases rows with
    | nil => exact absurd rfl hne
    | cons a l => exact Option.isSome_iff_exists.mp (by simp [List.getLast?_isSome])
  have hfe : final_equity (backtest_loop ic cm sl rows ps) =
      (backtest_loop ic cm sl rows ps).capital := by
    rw [loop_final_equity ic cm sl ps rows r hr, if_neg]
    simp [hflat]
  rw [hfe, hcap, hic]
  ring

/-- C3: the claim says `Σ pnl = final_equity − initial_capital` for every run
ending with no open position.  Counterexample: a single `BUY`/`EXIT_LONG`
round trip at price 100 with commission 1% ends flat with every recorded pnl 0
(Σ pnl = 0), yet `final_equity − initial_capital = 9801 − 10000 = −199`. -/
theorem C3_counterexample :
    (backtest_loop 10000 (1/100) 0 roundTripRows 1).in_position = false ∧
    sumSellProfits (run_backtest 10000 (1/100) 0 roundTripRows 1).trades = 0 ∧
    final_equity (run_backtest 10000 (1/100) 0 roundTripRows 1) - 10000 = -199 ∧
    (0 : ℚ) ≠ -199 := by
  refine ⟨rfl, ?_, ?_, by norm_num⟩ <;>
    norm_num [run_backtest, backtest_loop, backtest_step, execute_trade, update_equity, reset,
      roundTripRows, sumSellProfits, sellProfits, tradeProfit, final_equity, List.filterMap]

/-- Witness for `C3_amended` on the concrete round trip: `0 = (9801 − 10000) + 199`. -/
theorem C3_amended_witness :
    sumSellProfits (run_backtest 10000 (1/100) 0 roundTripRows 1).trades =
      final_equity (run_backtest 10000 (1/100) 0 roundTripRows 1) - 10000 +
        sumCommissions (run_backtest 10000 (1/100) 0 roundTripRows 1).trades := by
  refine C3_amended 10000 (1/100) 0 1 roundTripRows (by simp [roundTripRows]) ?_
    (by norm_num) rfl
  intro r hr
  simp only [roundTripRows, List.mem_cons, List.not_mem_nil, or_false] at hr
  rcases hr with rfl | rfl <;> norm_num

/-- Witness for `C10_equity_curve` on the concrete one-bar open-ended run. -/
theorem C10_equity_curve_witness :
    (run_backtest 10000 (1/10) 0 openEndRows 1).equity_curve.length = 1 ∧
    final_equity (run_backtest 10000 (1/10) 0 openEndRows 1) =
      (run_backtest 10000 (1/10) 0 openEndRows 1).capital +
        (backtest_loop 10000 (1/10) 0 openEndRows 1).position * 100 *
          ((0 : ℚ) + 1/10 - 0 * (1/10)) := by
  obtain ⟨h1, h2⟩ := C10_equity_curve 10000 (1/10) 0 openEndRows 1
  exact ⟨h1, (h2 ⟨0, 100, "BUY"⟩ rfl rfl).2⟩

/-! ### C4: sequential versus parallel grid search -/

theorem insertDesc_eq_orderedInsert (x : PPoint) (l : List PPoint) :
    insertDesc x l = List.orderedInsert rdesc x l := by
  induction l with
  | nil => rfl
  | cons y ys ih =>
    by_cases h : y.metric ≤ x.metric
    · simp [insertDesc, List.orderedInsert, rdesc, h]
    · simp [insertDesc, List.orderedInsert, rdesc, h, ih]

theorem sortDesc_eq_insertionSort (l : List PPoint) :
    sortDesc l = List.insertionSort rdesc l := by
  induction l with
  | nil => rfl
  | cons x xs ih =>
    simp only [sortDesc, List.foldr_cons, List.insertionSort]
    rw [show List.foldr insertDesc [] xs = sortDesc xs from rfl, ih,
      insertDesc_eq_orderedInsert]

theorem sortDesc_perm (l : List PPoint) : (sortDesc l).Perm l := by
  rw [sortDesc_eq_insertionSort]
  exact List.perm_insertionSort rdesc l

theorem sortDesc_sorted (l : List PPoint) : (sortDesc l).Sorted rdesc := by
  rw [sortDesc_eq_insertionSort]
  exact List.sorted_insertionSort rdesc l

/-- Two sorted-descending lists that are permutations of one another and have
pairwise-distinct metric values are equal. -/
theorem sorted_perm_nodup_metric_eq :
    ∀ (l₁ l₂ : List PPoint), l₁.Perm l₂ → l₁.Sorted rdesc → l₂.Sorted rdesc →
      (l₁.map PPoint.metric).Nodup → l₁ = l₂ := by
  intro l₁
  induction l₁ with
  | nil =>
    intro l₂ hp _ _ _
    exact List.Perm.nil_eq hp
  | cons a t₁ ih =>
    intro l₂ hp hs₁ hs₂ hnd
    cases l₂ with
    | nil =>
      have := hp.length_eq
      simp at this
    | cons b t₂ =>
      have hnd' : (∀ x ∈ t₁, ¬x.metric = a.metric) ∧ (t₁.map PPoint.metric).Nodup := by
        simpa using hnd
      have hab : a = b := by
        by_contra hne
        have ha2 : a ∈ b :: t₂ := hp.mem_iff.mp (List.mem_cons_self a t₁)
        have hb1 : b ∈ a :: t₁ := hp.mem_iff.mpr (List.mem_cons_self b t₂)
        have ha2' : a ∈ t₂ := by
          rcases List.mem_cons.mp ha2 with h | h
          · exact absurd h hne
          · exact h
        have hb1' : b ∈ t₁ := by
          rcases List.mem_cons.mp hb1 with h | h
          · exact absurd h.symm hne
          · exact h
        have h1 : a.metric ≤ b.metric := List.rel_of_sorted_cons hs₂ a ha2'
        have h2 : b.metric ≤ a.metric := List.rel_of_sorted_cons hs₁ b hb1'
        have heq : b.metric = a.metric := le_antisymm h2 h1
        exact hnd'.1 b hb1' heq
      subst hab
      rw [ih t₂ hp.cons_inv hs₁.of_cons hs₂.of_cons hnd'.2]

/-- C4 (amended): for every grid, strategy and parallel completion order (a
permutation of the grid's combinations), the parallel and sequential
`grid_search` results always agree as multisets; they are identical sequences
whenever the surviving metric values are pairwise distinct.  (With tied metric
values the completion order can permute the tied entries, because results are
collected in `as_completed` order and the sort compares the metric only.) -/
theorem C4_amended (strategy : List ℚ → Option ℚ) (grid : List (List ℚ))
    (order : List (List ℚ)) (hperm : order.Perm (productLists grid)) :
    (grid_search_par strategy order).Perm (grid_search_seq strategy grid) ∧
    (((runCombos strategy (productLists grid)).map PPoint.metric).Nodup →
      grid_search_par strategy order = grid_search_seq strategy grid) := by
  have hrc : (runCombos strategy order).Perm (runCombos strategy (productLists grid)) :=
    hperm.filterMap _
  have hpar : (grid_search_par strategy order).Perm (grid_search_seq strategy grid) :=
    ((sortDesc_perm _).trans hrc).trans (sortDesc_perm _).symm
  refine ⟨hpar, fun hnd => ?_⟩
  refine sorted_perm_nodup_metric_eq _ _ hpar (sortDesc_sorted _) (sortDesc_sorted _) ?_
  have hchain : (grid_search_par strategy order).Perm
      (runCombos strategy (productLists grid)) := (sortDesc_perm _).trans hrc
  exact ((hchain.map PPoint.metric).nodup_iff).mpr hnd

/-- C4: the claim says sequential and parallel runs return identical ranked
sequences for every grid.  Counterexample: with the one-parameter grid
`{p: [1, 2]}` and a strategy whose metric is 0 on both combinations, the
completion order `[[2], [1]]` (a permutation of the combination order) makes
the parallel ranked sequence `[(params 2), (params 1)]` while the sequential
one is `[(params 1), (params 2)]` — same content, different order. -/
theorem C4_counterexample :
    (([[2], [1]] : List (List ℚ)).Perm (productLists [[1, 2]])) ∧
    grid_search_par tieStrategy [[2], [1]] ≠ grid_search_seq tieStrategy [[1, 2]] := by
  constructor
  · have h : productLists [[1, 2]] = [([1] : List ℚ), [2]] := rfl
    rw [h]
    exact List.Perm.swap _ _ _
  · have h1 : grid_search_par tieStrategy [[2], [1]] =
        [{ params := [2], metric := 0 }, { params := [1], metric := 0 }] := rfl
    have h2 : grid_search_seq tieStrategy [[1, 2]] =
        [{ params := [1], metric := 0 }, { params := [2], metric := 0 }] := rfl
    rw [h1, h2]
    intro hcontra
    have hhead := List.head_eq_of_cons_eq hcontra
    have h3 : ([2] : List ℚ) = [1] := congrArg PPoint.params hhead
    have h4 : (2 : ℚ) = 1 := List.head_eq_of_cons_eq h3
    norm_num at h4

/-- Witness for `C4_amended`: with pairwise-distinct metrics (the first
parameter value), the permuted completion order yields the same ranked
sequence as the sequential run. -/
theorem C4_amended_witness :
    grid_search_par headStrategy [[2], [1]] = grid_search_seq headStrategy [[1, 2]] := by
  have hperm : ([[2], [1]] : List (List ℚ)).Perm (productLists [[1, 2]]) := by
    have h : productLists [[1, 2]] = [([1] : List ℚ), [2]] := rfl
    rw [h]
    exact List.Perm.swap _ _ _
  refine (C4_amended headStrategy [[1, 2]] [[2], [1]] hperm).2 ?_
  have h : (runCombos headStrategy (productLists [[1, 2]])).map PPoint.metric =
      [1, 2] := rfl
  rw [h]
  norm_num

end BitcoinEmaAnalyzer
